import Mathlib

/-
  Verification development for the CUPCAKE node-local upgrade agent
  (src/main.py).  The agent's durable state machine is the operation
  directory: marker files written, renamed and inspected by
  UpdateAgent.process_operation.  We embed that state machine shallowly:

  * file names inside an operation directory are the constructors of
    FileName (the Python code builds the corresponding path strings
    "step-NN-<name>.done", "step-NN-<name>.inprogress", "failed",
    "completed", "metadata.json"; for the step indices and names in use the
    string scheme is injective, which the constructor representation makes
    explicit);
  * file contents are the JSON payloads the code dumps, with timestamps
    modelled by a monotone clock counter;
  * the executor is a recursive function over an AgentState that also
    records a trace of the operations performed (file writes, renames,
    step-function invocations, skips, node-annotation patch attempts, and
    fsync - the last is part of the vocabulary of durable-storage actions
    so that the absence of fsync calls in the code is a provable fact of
    the embedding, not an artifact of it);
  * external step functions (apt, kubeadm, systemctl, ...) are abstracted
    by an outcome oracle f : Nat -> Except String Unit giving the result of
    the i-th step's function when invoked in this run; step functions only
    write under logs/, never to the marker files, so the marker-level state
    machine is unaffected by their internals.
-/

/-- Names of the files the executor manipulates inside one operation
directory (src/main.py, process_operation). -/
inductive FileName where
  | metadataJson
  | stepDone (i : Nat) (name : String)
  | stepInprogress (i : Nat) (name : String)
  | failed
  | completed
deriving DecidableEq

/-- Contents of the files (the JSON objects json.dump writes in
process_operation).  Timestamps are clock counter values. -/
inductive FileContent where
  | metadata (operation_id : String) (target_version : Option String)
      (components : List String) (node_name : String) (started_at : Nat)
  | stepMarker (step : Nat) (name : String) (started_at : Nat)
  | failedMarker (step : Nat) (name : String) (error : String) (failed_at : Nat)
  | completedMarker (completed_at : Nat) (node_name : String)
deriving DecidableEq

/-- Operation metadata (the dict written to metadata.json). -/
structure Metadata where
  operation_id : String
  target_version : Option String
  components : List String
  node_name : String
  started_at : Nat
deriving DecidableEq

/-- The operation directory: an association list from file name to
content.  Writing truncates/overwrites, as Python open(..., 'w') does. -/
abbrev Dir := List (FileName × FileContent)

def lookupFile : Dir → FileName → Option FileContent
  | [], _ => none
  | (m, c) :: rest, n => if m = n then some c else lookupFile rest n

def hasFile (d : Dir) (n : FileName) : Bool :=
  (lookupFile d n).isSome

def removeFile : Dir → FileName → Dir
  | [], _ => []
  | (m, c) :: rest, n => if m = n then removeFile rest n else (m, c) :: removeFile rest n

def setFile (d : Dir) (n : FileName) (c : FileContent) : Dir :=
  (n, c) :: removeFile d n

/-- os.rename src -> dst inside the same operation directory
(in_progress_file.rename(step_file) in process_operation).  In every run
the source file was just written, so the missing-source branch is dead
code (Python would raise there). -/
def renameFile (d : Dir) (src dst : FileName) : Dir :=
  match lookupFile d src with
  | some c => setFile (removeFile d src) dst c
  | none => d

/-- The observable actions of one executor run: file-system operations on
the operation directory, step-function calls and skips, and node-status
patch attempts.  fsyncFile/fsyncDir are the durable-storage actions the
spec asks for; the code never performs them, which the trace makes
provable. -/
inductive Event where
  | write (file : FileName) (content : FileContent)
  | rename (src dst : FileName)
  | fsyncFile (file : FileName)
  | fsyncDir
  | invoke (step : Nat) (name : String)
  | skip (step : Nat) (name : String)
  | patchStatus (value : String)
deriving DecidableEq

def isFsyncEvent : Event → Bool
  | Event.fsyncFile _ => true
  | Event.fsyncDir => true
  | _ => false

/-- Agent-visible state during one process_operation run: the operation
directory, the node's status annotation value, a clock supplying
timestamps, and the trace of performed events (most recent first). -/
structure AgentState where
  dir : Dir
  statusAnn : Option String
  clock : Nat
  trace : List Event
deriving DecidableEq

/-- Write (create or truncate) a file, recording the event and advancing
the clock. -/
def writeF (st : AgentState) (n : FileName) (c : FileContent) : AgentState :=
  { st with dir := setFile st.dir n c,
            clock := st.clock + 1,
            trace := Event.write n c :: st.trace }

/-- Atomic same-directory rename (Path.rename in process_operation). -/
def renameF (st : AgentState) (src dst : FileName) : AgentState :=
  { st with dir := renameFile st.dir src dst,
            trace := Event.rename src dst :: st.trace }

/-- update_node_annotation in src/main.py: a patch_node call wrapped in
try/except.  The attempt is always made (recorded in the trace); on API
failure the exception is caught and logged, leaving the state unchanged,
so the function always returns normally.  patchOk models whether the API
call succeeds. -/
def update_node_ann (patchOk : Bool) (st : AgentState) (value : String) : AgentState :=
  { st with trace := Event.patchStatus value :: st.trace,
            statusAnn := if patchOk then some value else st.statusAnn }

/-- The step loop of UpdateAgent.process_operation (src/main.py lines
155-210), indexed from i (the code enumerates from 1).  steps is the list
of step names from get_upgrade_steps; f gives the outcome of each step's
function when invoked. -/
def runSteps (nodeName : String) (patchOk : Bool) (f : Nat → Except String Unit) :
    List String → Nat → AgentState → AgentState
  | [], _, st =>
      let st1 := writeF st FileName.completed
        (FileContent.completedMarker st.clock nodeName)
      update_node_ann patchOk st1 "completed"
  | name :: rest, i, st =>
      if hasFile st.dir (FileName.stepDone i name) then
        runSteps nodeName patchOk f rest (i + 1)
          { st with trace := Event.skip i name :: st.trace }
      else
        let st1 := writeF st (FileName.stepInprogress i name)
          (FileContent.stepMarker i name st.clock)
        let st2 := { st1 with trace := Event.invoke i name :: st1.trace }
        match f i with
        | Except.ok _ =>
            runSteps nodeName patchOk f rest (i + 1)
              (renameF st2 (FileName.stepInprogress i name) (FileName.stepDone i name))
        | Except.error e =>
            let st3 := writeF st2 FileName.failed
              (FileContent.failedMarker i name e st2.clock)
            update_node_ann patchOk st3 "failed"

/-- is_control_plane_node (src/main.py lines 257-269): reads the node's
labels; on any exception returns False.  The argument is the result of
the read_node call (error = any raised exception, rendered as text). -/
def is_control_plane_node (nodeResult : Except String (List (String × String))) : Bool :=
  match nodeResult with
  | Except.ok labels =>
      (labels.lookup "node-role.kubernetes.io/control-plane").isSome ||
      (labels.lookup "node-role.kubernetes.io/master").isSome
  | Except.error _ => false

/-- get_upgrade_steps (src/main.py lines 212-255).  In the source each
step is a dict with 'name' and 'func'; the func is determined by the name,
so the plan is represented by the name list, with the function behaviour
supplied by the outcome oracle of runSteps. -/
def get_upgrade_steps (is_control_plane : Bool) (components : List String) : List String :=
  if is_control_plane then
    ["download-packages", "upgrade-kubeadm", "kubeadm-upgrade", "upgrade-kubelet"]
    ++ (if components.contains "containerd" then ["upgrade-containerd"] else [])
    ++ ["restart-kubelet", "verify-node"]
  else
    ["download-packages", "drain-node", "upgrade-kubeadm", "kubeadm-upgrade-node",
     "upgrade-kubelet"]
    ++ (if components.contains "containerd" then ["upgrade-containerd"] else [])
    ++ ["restart-kubelet", "verify-node", "uncordon-node"]

/-- UpdateAgent.process_operation (src/main.py lines 121-210).  Creates
the directory, writes metadata.json when resume is false (when resume is
true the code loads the stored metadata; the model receives that metadata
as the meta argument), computes the plan and runs the step loop starting
at index 1.  isCP is the value returned by is_control_plane_node inside
get_upgrade_steps; dir0/ann0 are the operation directory and node status
annotation at entry; the trace starts empty for the run. -/
def initState (dir0 : Dir) (ann0 : Option String) : AgentState :=
  { dir := dir0, statusAnn := ann0, clock := 0, trace := [] }

def process_operation (nodeName : String) (patchOk : Bool)
    (f : Nat → Except String Unit) (isCP : Bool) (meta : Metadata)
    (resume : Bool) (dir0 : Dir) (ann0 : Option String) : AgentState :=
  runSteps nodeName patchOk f (get_upgrade_steps isCP meta.components) 1
    (if resume then initState dir0 ann0
     else writeF (initState dir0 ann0) FileName.metadataJson
       (FileContent.metadata meta.operation_id meta.target_version
         meta.components meta.node_name meta.started_at))

/-- Errors raised by checked subprocess invocations
(subprocess.CalledProcessError from check=True). -/
inductive AgentErr where
  | subprocessFailed (argv : List String) (exitCode : Nat)
deriving DecidableEq

/-- subprocess.run(cmd, ..., check=True): raises on nonzero exit. -/
def runChecked (argv : List String) (exitCode : Nat) : Except AgentErr Unit :=
  if exitCode = 0 then Except.ok () else Except.error (AgentErr.subprocessFailed argv exitCode)

def aptPackages (target_version : String) : List String :=
  ["kubeadm=" ++ target_version ++ "-00",
   "kubelet=" ++ target_version ++ "-00",
   "kubectl=" ++ target_version ++ "-00"]

/-- subprocess.run(cmd, ...) without check=True: the exit code is
returned and left for the caller to classify (or ignore). -/
def runUnchecked (_argv : List String) (exitCode : Nat) : Nat :=
  exitCode

/-- UpdateAgent._download_packages_apt (src/main.py lines 291-312):
apt-get update with check=True, then apt-get download WITHOUT check=True
(its result is bound to a variable and never inspected).  updateExit /
downloadExit are the two commands' exit codes. -/
def download_packages_apt (target_version : String)
    (updateExit downloadExit : Nat) : Except AgentErr Unit := do
  runChecked ["apt-get", "update"] updateExit
  let _result := runUnchecked (["apt-get", "download"] ++ aptPackages target_version) downloadExit
  pure ()

/-- A snapshot-request ConfigMap as consumed by check_backup_requests:
name plus the data fields the code reads with .get (absent keys give
none). -/
structure BackupCM where
  name : String
  node_name : Option String
  operation_id : Option String
  snapshot_name : Option String
deriving DecidableEq

/-- A backup-status ConfigMap as built by create_backup_status. -/
structure StatusCM where
  name : String
  completed : String
  success : String
  message : String
  snapshot_name : String
  timestamp : Nat
deriving DecidableEq

/-- Cluster-side effects of the backup flow: status objects created,
request objects deleted, plus a clock for timestamps. -/
structure K8s where
  created : List StatusCM
  deleted : List String
  clock : Nat
deriving DecidableEq

/-- Python str() of an optional string (f-string renders None as "None"). -/
def optStr (o : Option String) : String :=
  o.getD "None"

def dotsToDashes (s : String) : String :=
  String.mk (s.data.map (fun c => if c = '.' then '-' else c))

def backup_status_name (nodeName : String) (opId : Option String) : String :=
  dotsToDashes ("backup-status-" ++ optStr opId ++ "-" ++ nodeName)

/-- UpdateAgent.create_backup_status (src/main.py lines 726-748): builds
and creates the status ConfigMap (an API failure there is caught and
logged; the model records the created object). -/
def create_backup_status (nodeName : String) (opId snapName : Option String)
    (success : Bool) (message : String) (k : K8s) : K8s :=
  { k with
      created :=
        { name := backup_status_name nodeName opId,
          completed := "true",
          success := if success then "true" else "false",
          message := message,
          snapshot_name := optStr snapName,
          timestamp := k.clock } :: k.created,
      clock := k.clock + 1 }

/-- UpdateAgent.perform_etcd_backup (src/main.py lines 600-645).  outcome
abstracts the snapshot pipeline (etcdctl save, etcdctl status, optional
upload); on success a success-status object is created with
message = str(snapshot_path); on failure a failure-status object is
created with message = str(e) and the exception is RE-RAISED (the final
raise at line 645), which the Except.error result models. -/
def perform_etcd_backup (hostpathRoot nodeName : String)
    (outcome : Except String Unit) (opId snapName : Option String)
    (k : K8s) : K8s × Except String Unit :=
  let snapshotPath := hostpathRoot ++ "/" ++ optStr snapName ++ ".db"
  match outcome with
  | Except.ok _ =>
      (create_backup_status nodeName opId snapName true snapshotPath k, Except.ok ())
  | Except.error e =>
      (create_backup_status nodeName opId snapName false e k, Except.error e)

/-- The for-loop body of UpdateAgent.check_backup_requests (src/main.py
lines 580-595), with j the position of the current ConfigMap in the
listed order and outcome j the snapshot result for the j-th request.
An exception raised by perform_etcd_backup propagates out of the loop to
the enclosing try, which logs and swallows it — so on failure the current
request is NOT deleted and the remaining ConfigMaps are not visited. -/
def backupLoop (hostpathRoot nodeName : String)
    (outcome : Nat → Except String Unit) :
    List BackupCM → Nat → K8s → K8s
  | [], _, k => k
  | cm :: rest, j, k =>
      if cm.node_name ≠ some nodeName then
        backupLoop hostpathRoot nodeName outcome rest (j + 1) k
      else
        match perform_etcd_backup hostpathRoot nodeName (outcome j)
            cm.operation_id cm.snapshot_name k with
        | (k1, Except.ok _) =>
            backupLoop hostpathRoot nodeName outcome rest (j + 1)
              { k1 with deleted := cm.name :: k1.deleted }
        | (k1, Except.error _) => k1

/-- UpdateAgent.check_backup_requests (src/main.py lines 566-598): no-op
unless BACKUP_STORE_ENABLED; cms is the list returned for the
label selector backup=true in the agent's namespace. -/
def check_backup_requests (enabled : Bool) (hostpathRoot nodeName : String)
    (outcome : Nat → Except String Unit) (cms : List BackupCM) (k : K8s) : K8s :=
  if enabled then backupLoop hostpathRoot nodeName outcome cms 0 k else k

def opIdKey : String := "cupcake.ricardomolendijk.com/operation-id"
def statusKey : String := "cupcake.ricardomolendijk.com/status"
def targetVersionKey : String := "cupcake.ricardomolendijk.com/target-version"
def componentsKey : String := "cupcake.ricardomolendijk.com/components"

/-- The dispatch decision a reconcile tick makes for an operation
(src/main.py lines 102-113): the operation id and the parsed upgrade
details when work is dispatched, none otherwise. -/
structure DispatchCall where
  operation_id : String
  target_version : Option String
  components : List String
deriving DecidableEq

def splitCommaAux : List Char → List Char → List String
  | [], acc => [String.mk acc.reverse]
  | c :: cs, acc =>
      if c = ',' then String.mk acc.reverse :: splitCommaAux cs []
      else splitCommaAux cs (c :: acc)

/-- Python str.split(',') (no maxsplit): every comma separates, the empty
string splits to ['']. -/
def splitComma (s : String) : List String :=
  splitCommaAux s.data []

/-- The annotation-inspection part of UpdateAgent.reconcile (src/main.py
lines 95-113).  ann is the node's metadata.annotations as key/value
pairs.  The status annotation defaults to 'pending' when absent
(annotations.get(..., 'pending')); Python truthiness makes an empty
operation-id string count as absent; components is split on ',' (so the
empty default yields ['']). -/
def reconcile_dispatch (ann : List (String × String)) : Option DispatchCall :=
  let operation_id := ann.lookup opIdKey
  let status := (ann.lookup statusKey).getD "pending"
  match operation_id with
  | some opId =>
      if opId ≠ "" ∧ status = "pending" then
        some { operation_id := opId,
               target_version := ann.lookup targetVersionKey,
               components := splitComma ((ann.lookup componentsKey).getD "") }
      else none
  | none => none

/-! ### Basic facts about the directory map -/

theorem lookupFile_removeFile (d : Dir) (m n : FileName) (h : n ≠ m) :
    lookupFile (removeFile d m) n = lookupFile d n := by
  induction d with
  | nil => rfl
  | cons p rest ih =>
    obtain ⟨a, c⟩ := p
    have hmn : ¬ (m = n) := fun hh => h hh.symm
    by_cases ha : a = m
    · have han : ¬ (a = n) := fun hh => h (by rw [← hh]; exact ha)
      simp [removeFile, lookupFile, ha, han, hmn, ih]
    · by_cases han : a = n
      · simp [removeFile, lookupFile, ha, han, h, ih]
      · simp [removeFile, lookupFile, ha, han, hmn, ih]

theorem lookupFile_setFile_same (d : Dir) (n : FileName) (c : FileContent) :
    lookupFile (setFile d n c) n = some c := by
  simp [setFile, lookupFile]

theorem lookupFile_setFile_other (d : Dir) (m n : FileName) (c : FileContent)
    (h : n ≠ m) : lookupFile (setFile d m c) n = lookupFile d n := by
  have hmn : ¬ (m = n) := fun hh => h hh.symm
  simp [setFile, lookupFile, hmn, lookupFile_removeFile d m n h]

theorem hasFile_setFile_same (d : Dir) (n : FileName) (c : FileContent) :
    hasFile (setFile d n c) n = true := by
  simp [hasFile, lookupFile_setFile_same]

theorem hasFile_setFile_other (d : Dir) (m n : FileName) (c : FileContent)
    (h : n ≠ m) : hasFile (setFile d m c) n = hasFile d n := by
  simp [hasFile, lookupFile_setFile_other d m n c h]

theorem hasFile_removeFile_other (d : Dir) (m n : FileName) (h : n ≠ m) :
    hasFile (removeFile d m) n = hasFile d n := by
  simp [hasFile, lookupFile_removeFile d m n h]

theorem hasFile_renameFile_other (d : Dir) (src dst n : FileName)
    (h1 : n ≠ src) (h2 : n ≠ dst) :
    hasFile (renameFile d src dst) n = hasFile d n := by
  unfold renameFile
  cases hsrc : lookupFile d src with
  | none => rfl
  | some c =>
    rw [hasFile_setFile_other _ _ _ _ h2, hasFile_removeFile_other _ _ _ h1]

/-! ### C5: the step plan -/

/-- C5: the plan function is deterministic in (role, components) — it is a
pure function of the role flag and the components list — and returns
exactly the control-plane sequence download-packages, upgrade-kubeadm,
kubeadm-upgrade, upgrade-kubelet, [upgrade-containerd iff containerd is a
member of components], restart-kubelet, verify-node, and exactly the
worker sequence download-packages, drain-node, upgrade-kubeadm,
kubeadm-upgrade-node, upgrade-kubelet, [upgrade-containerd iff
containerd ∈ components], restart-kubelet, verify-node, uncordon-node;
the control-plane plan never contains drain-node or uncordon-node, and
empty components yields no upgrade-containerd. -/
theorem plan_exact_and_role_restricted (components : List String) :
    (components.contains "containerd" = true ↔ "containerd" ∈ components)
    ∧ get_upgrade_steps true components =
        ["download-packages", "upgrade-kubeadm", "kubeadm-upgrade", "upgrade-kubelet"]
        ++ (if components.contains "containerd" then ["upgrade-containerd"] else [])
        ++ ["restart-kubelet", "verify-node"]
    ∧ get_upgrade_steps false components =
        ["download-packages", "drain-node", "upgrade-kubeadm", "kubeadm-upgrade-node",
         "upgrade-kubelet"]
        ++ (if components.contains "containerd" then ["upgrade-containerd"] else [])
        ++ ["restart-kubelet", "verify-node", "uncordon-node"]
    ∧ "drain-node" ∉ get_upgrade_steps true components
    ∧ "uncordon-node" ∉ get_upgrade_steps true components
    ∧ "upgrade-containerd" ∉ get_upgrade_steps true []
    ∧ "upgrade-containerd" ∉ get_upgrade_steps false [] := by
  refine ⟨List.elem_iff, rfl, rfl, ?_, ?_, by decide, by decide⟩ <;>
    cases h : components.contains "containerd" <;> simp [get_upgrade_steps, h]

/-! ### C6: apt download-packages checks only apt-get update -/

/-- C6: on an apt host, the download-packages step fails with
SubprocessFailed exactly when apt-get update exits nonzero; the exit
status of the subsequent apt-get download command is never examined, so
the result is independent of it. -/
theorem download_apt_checks_update_only (tv : String) (u d : Nat) :
    (download_packages_apt tv u d = Except.ok () ↔ u = 0)
    ∧ (download_packages_apt tv u d =
        Except.error (AgentErr.subprocessFailed ["apt-get", "update"] u) ↔ ¬ (u = 0))
    ∧ (∀ d₂ : Nat, download_packages_apt tv u d = download_packages_apt tv u d₂) := by
  by_cases h : u = 0 <;>
    simp [download_packages_apt, runChecked, h]

/-! ### C8: role-detection errors select the worker plan -/

/-- C8: if reading the node or its labels raises during role detection,
is_control_plane_node returns false, so the worker plan — which contains
drain-node and uncordon-node — is selected, even though a successful read
of a control-plane-labeled node would have returned true. -/
theorem role_error_selects_worker_plan (e : String) (components : List String) :
    is_control_plane_node (Except.error e) = false
    ∧ "drain-node" ∈ get_upgrade_steps (is_control_plane_node (Except.error e)) components
    ∧ "uncordon-node" ∈ get_upgrade_steps (is_control_plane_node (Except.error e)) components
    ∧ is_control_plane_node
        (Except.ok [("node-role.kubernetes.io/control-plane", "")]) = true := by
  refine ⟨rfl, ?_, ?_, by decide⟩ <;>
    cases h : components.contains "containerd" <;>
      simp [is_control_plane_node, get_upgrade_steps, h]

/-! ### C9: a missing status annotation is treated as pending -/

/-- C9: in the reconciler, a node whose annotations carry a (nonempty)
operation-id but no status annotation at all is dispatched as new work:
the missing status annotation defaults to the value pending. -/
theorem missing_status_treated_pending (ann : List (String × String)) (opId : String)
    (hop : ann.lookup opIdKey = some opId) (hne : opId ≠ "")
    (hst : ann.lookup statusKey = none) :
    reconcile_dispatch ann =
      some { operation_id := opId,
             target_version := ann.lookup targetVersionKey,
             components := splitComma ((ann.lookup componentsKey).getD "") } := by
  simp [reconcile_dispatch, hop, hst, hne]

/-- Witness for C9: a node annotated only with operation-id op1 is
dispatched, with status read as pending, no target version and the
empty-string components split. -/
theorem missing_status_treated_pending_witness :
    reconcile_dispatch [(opIdKey, "op1")] =
      some { operation_id := "op1", target_version := none, components := [""] } :=
  (missing_status_treated_pending [(opIdKey, "op1")] "op1"
    (by decide) (by decide) (by decide)).trans (by decide)

/-! ### Executor run lemmas -/

/-- Equality of the disk-visible parts of two agent states (directory,
clock, event trace) — everything except the node annotation value. -/
def DiskEq (s t : AgentState) : Prop :=
  s.dir = t.dir ∧ s.clock = t.clock ∧ s.trace = t.trace

theorem runSteps_diskEq (nodeName : String) (f : Nat → Except String Unit) :
    ∀ (L : List String) (i : Nat) (p q : Bool) (s t : AgentState),
      s.dir = t.dir → s.clock = t.clock → s.trace = t.trace →
      DiskEq (runSteps nodeName p f L i s) (runSteps nodeName q f L i t) := by
  intro L
  induction L with
  | nil =>
    intro i p q s t h1 h2 h3
    simp [runSteps, update_node_ann, writeF, DiskEq, h1, h2, h3]
  | cons name rest ih =>
    intro i p q s t h1 h2 h3
    cases hds : hasFile s.dir (FileName.stepDone i name) with
    | true =>
      have hdt : hasFile t.dir (FileName.stepDone i name) = true := by
        rw [← h1]; exact hds
      simp only [runSteps, hds, hdt, if_true]
      exact ih (i + 1) p q _ _ h1 h2 (by simp [h3])
    | false =>
      have hdt : hasFile t.dir (FileName.stepDone i name) = false := by
        rw [← h1]; exact hds
      cases hf : f i with
      | ok u =>
        simp only [runSteps, hds, hdt, hf, Bool.false_eq_true, if_false]
        exact ih (i + 1) p q _ _ (by simp [renameF, writeF, h1, h2, h3])
          (by simp [renameF, writeF, h1, h2, h3]) (by simp [renameF, writeF, h1, h2, h3])
      | error e =>
        simp [runSteps, hds, hdt, hf, update_node_ann, writeF, DiskEq, h1, h2, h3]

theorem runSteps_terminal (nodeName : String) (p : Bool) (f : Nat → Except String Unit) :
    ∀ (L : List String) (i : Nat) (st : AgentState),
      hasFile (runSteps nodeName p f L i st).dir FileName.completed = true
      ∨ hasFile (runSteps nodeName p f L i st).dir FileName.failed = true := by
  intro L
  induction L with
  | nil =>
    intro i st
    left
    simp [runSteps, update_node_ann, writeF, hasFile_setFile_same]
  | cons name rest ih =>
    intro i st
    cases hds : hasFile st.dir (FileName.stepDone i name) with
    | true =>
      simp only [runSteps, hds, if_true]
      exact ih (i + 1) _
    | false =>
      cases hf : f i with
      | ok u =>
        simp only [runSteps, hds, hf, Bool.false_eq_true, if_false]
        exact ih (i + 1) _
      | error e =>
        right
        simp [runSteps, hds, hf, update_node_ann, writeF, hasFile_setFile_same]

theorem runSteps_single_terminal (nodeName : String) (p : Bool)
    (f : Nat → Except String Unit) :
    ∀ (L : List String) (i : Nat) (st : AgentState),
      hasFile st.dir FileName.failed = false →
      hasFile st.dir FileName.completed = false →
      ¬ (hasFile (runSteps nodeName p f L i st).dir FileName.failed = true
         ∧ hasFile (runSteps nodeName p f L i st).dir FileName.completed = true) := by
  intro L
  induction L with
  | nil =>
    intro i st hf _ hcontra
    have : hasFile (runSteps nodeName p f [] i st).dir FileName.failed = false := by
      simp [runSteps, update_node_ann, writeF]
      rw [hasFile_setFile_other _ _ _ _ (by simp)]
      exact hf
    rw [this] at hcontra
    exact absurd hcontra.1 (by simp)
  | cons name rest ih =>
    intro i st hfl hcp
    cases hds : hasFile st.dir (FileName.stepDone i name) with
    | true =>
      simp only [runSteps, hds, if_true]
      exact ih (i + 1) _ hfl hcp
    | false =>
      cases hf : f i with
      | ok u =>
        simp only [runSteps, hds, hf, Bool.false_eq_true, if_false]
        apply ih (i + 1)
        · simp only [renameF, writeF]
          rw [hasFile_renameFile_other _ _ _ _ (by simp) (by simp),
            hasFile_setFile_other _ _ _ _ (by simp)]
          exact hfl
        · simp only [renameF, writeF]
          rw [hasFile_renameFile_other _ _ _ _ (by simp) (by simp),
            hasFile_setFile_other _ _ _ _ (by simp)]
          exact hcp
      | error e =>
        intro hcontra
        have : hasFile (runSteps nodeName p f (name :: rest) i st).dir
            FileName.completed = false := by
          simp only [runSteps, hds, hf, Bool.false_eq_true, if_false,
            update_node_ann, writeF]
          rw [hasFile_setFile_other _ _ _ _ (by simp),
            hasFile_setFile_other _ _ _ _ (by simp)]
          exact hcp
        rw [this] at hcontra
        exact absurd hcontra.2 (by simp)

/-! ### C10: annotation patch failures are swallowed -/

/-- C10: a failing node-status patch is caught inside the annotation
updater, which then leaves the state unchanged and returns normally, so
an execute run's disk outcome (directory contents, clock, full event
trace) is identical whatever the patch results are, and the run always
ends with a terminal marker (completed or failed) on disk regardless —
only the annotation can lag the disk state. -/
theorem patch_failure_swallowed (nodeName : String) (f : Nat → Except String Unit)
    (isCP : Bool) (meta : Metadata) (resume : Bool) (dir0 : Dir)
    (ann0 : Option String) (p q : Bool) (st : AgentState) (v : String) :
    DiskEq (process_operation nodeName p f isCP meta resume dir0 ann0)
           (process_operation nodeName q f isCP meta resume dir0 ann0)
    ∧ (update_node_ann false st v).statusAnn = st.statusAnn
    ∧ (update_node_ann false st v).dir = st.dir
    ∧ (hasFile (process_operation nodeName p f isCP meta resume dir0 ann0).dir
          FileName.completed = true
       ∨ hasFile (process_operation nodeName p f isCP meta resume dir0 ann0).dir
          FileName.failed = true) := by
  refine ⟨?_, by simp [update_node_ann], by simp [update_node_ann], ?_⟩
  · unfold process_operation
    exact runSteps_diskEq nodeName f _ 1 p q _ _ rfl rfl rfl
  · unfold process_operation
    exact runSteps_terminal nodeName p f _ 1 _

/-! ### C3: the single-terminal-marker invariant fails on same-id retry -/

/-- C3 counterexample: the claimed invariant — at most one of completed /
failed per operation directory in every reachable state, including a
controller-initiated retry over a directory carrying a failed marker — is
false.  Run 1 fails at step 1 and writes the failed marker; the
controller re-sets status=pending with the same operation id, so the
reconciler calls process_operation again over the same directory; run 2
succeeds everywhere, writes completed, and never removes the stale failed
marker: both terminal markers now exist. -/
theorem single_terminal_counterexample :
    let meta : Metadata :=
      { operation_id := "op1", target_version := some "1.29.4",
        components := [], node_name := "node1", started_at := 0 }
    let run1 := process_operation "node1" true (fun _ => Except.error "boom")
      true meta false [] none
    let run2 := process_operation "node1" true (fun _ => Except.ok ())
      true meta false run1.dir (some "failed")
    hasFile run2.dir FileName.failed = true
    ∧ hasFile run2.dir FileName.completed = true := by
  decide

/-- C3 (amended): an execute run that starts from an operation directory
containing neither terminal marker ends with at most one of completed and
failed; the original invariant fails only when execute is re-driven over
a directory that already carries a failed marker (same-id retry), in
which case a subsequent success adds completed without removing failed. -/
theorem single_terminal_per_clean_run (nodeName : String) (p : Bool)
    (f : Nat → Except String Unit) (isCP : Bool) (meta : Metadata)
    (resume : Bool) (dir0 : Dir) (ann0 : Option String)
    (hfl : hasFile dir0 FileName.failed = false)
    (hcp : hasFile dir0 FileName.completed = false) :
    ¬ (hasFile (process_operation nodeName p f isCP meta resume dir0 ann0).dir
          FileName.failed = true
       ∧ hasFile (process_operation nodeName p f isCP meta resume dir0 ann0).dir
          FileName.completed = true) := by
  unfold process_operation
  apply runSteps_single_terminal
  · cases resume with
    | true => simpa using hfl
    | false =>
      simp only [Bool.false_eq_true, if_false, writeF]
      rw [hasFile_setFile_other _ _ _ _ (by simp)]
      exact hfl
  · cases resume with
    | true => simpa using hcp
    | false =>
      simp only [Bool.false_eq_true, if_false, writeF]
      rw [hasFile_setFile_other _ _ _ _ (by simp)]
      exact hcp

/-- Witness for the amended C3: a concrete failing run over an initially
empty directory ends with the failed marker but without completed. -/
theorem single_terminal_per_clean_run_witness :
    ¬ (hasFile (process_operation "node1" true (fun _ => Except.error "boom") true
          { operation_id := "op1", target_version := some "1.29.4",
            components := [], node_name := "node1", started_at := 0 }
          false [] none).dir FileName.failed = true
       ∧ hasFile (process_operation "node1" true (fun _ => Except.error "boom") true
          { operation_id := "op1", target_version := some "1.29.4",
            components := [], node_name := "node1", started_at := 0 }
          false [] none).dir FileName.completed = true) :=
  single_terminal_per_clean_run "node1" true (fun _ => Except.error "boom") true
    { operation_id := "op1", target_version := some "1.29.4",
      components := [], node_name := "node1", started_at := 0 }
    false [] none (by decide) (by decide)

/-! ### C1: fail-fast on step failure -/

theorem runSteps_fail_char (nodeName : String) (p : Bool) (f : Nat → Except String Unit) :
    ∀ (L : List String) (i : Nat) (st : AgentState),
      (∀ j m, Event.invoke j m ∈ st.trace → (f j).isOk = true ∧ j < i) →
      (∀ c, Event.write FileName.completed c ∉ st.trace) →
      ∀ k n e, Event.invoke k n ∈ (runSteps nodeName p f L i st).trace →
        f k = Except.error e →
        (∃ t, lookupFile (runSteps nodeName p f L i st).dir FileName.failed
            = some (FileContent.failedMarker k n e t))
        ∧ Event.patchStatus "failed" ∈ (runSteps nodeName p f L i st).trace
        ∧ (p = true → (runSteps nodeName p f L i st).statusAnn = some "failed")
        ∧ (∀ j m, Event.invoke j m ∈ (runSteps nodeName p f L i st).trace → j ≤ k)
        ∧ (∀ c, Event.write FileName.completed c ∉ (runSteps nodeName p f L i st).trace) := by
  intro L
  induction L with
  | nil =>
    intro i st hinv hcomp k n e hk hek
    exfalso
    have hmem : Event.invoke k n ∈ st.trace := by
      simpa [runSteps, update_node_ann, writeF] using hk
    have h := (hinv k n hmem).1
    rw [hek] at h
    simp [Except.isOk, Except.toBool] at h
  | cons name rest ih =>
    intro i st hinv hcomp k n e hk hek
    cases hds : hasFile st.dir (FileName.stepDone i name) with
    | true =>
      simp only [runSteps, hds, if_true] at hk ⊢
      refine ih (i + 1) _ ?_ ?_ k n e hk hek
      · intro j m hm
        have hm' : Event.invoke j m ∈ st.trace := by simpa using hm
        exact ⟨(hinv j m hm').1, Nat.lt_succ_of_lt (hinv j m hm').2⟩
      · intro c hm
        have hm' : Event.write FileName.completed c ∈ st.trace := by simpa using hm
        exact hcomp c hm'
    | false =>
      cases hf : f i with
      | ok u =>
        simp only [runSteps, hds, hf, Bool.false_eq_true, if_false] at hk ⊢
        refine ih (i + 1) _ ?_ ?_ k n e hk hek
        · intro j m hm
          have hm' : (j = i ∧ m = name) ∨ Event.invoke j m ∈ st.trace := by
            simpa [renameF, writeF] using hm
          rcases hm' with ⟨hj, _⟩ | hmem
          · subst hj
            exact ⟨by rw [hf]; rfl, Nat.lt_succ_self _⟩
          · exact ⟨(hinv j m hmem).1, Nat.lt_succ_of_lt (hinv j m hmem).2⟩
        · intro c hm
          have hm' : Event.write FileName.completed c ∈ st.trace := by
            simpa [renameF, writeF] using hm
          exact hcomp c hm'
      | error e0 =>
        simp only [runSteps, hds, hf, Bool.false_eq_true, if_false,
          update_node_ann, writeF] at hk ⊢
        have hk' : (k = i ∧ n = name) ∨ Event.invoke k n ∈ st.trace := by
          simpa using hk
        rcases hk' with ⟨hki, hni⟩ | hmem
        · subst hki
          subst hni
          have hee : e0 = e := by
            rw [hf] at hek
            injection hek
          subst hee
          refine ⟨⟨st.clock + 1, ?_⟩, ?_, ?_, ?_, ?_⟩
          · exact lookupFile_setFile_same _ _ _
          · simp
          · intro hp
            simp [hp]
          · intro j m hm
            have hm' : (j = k ∧ m = n) ∨ Event.invoke j m ∈ st.trace := by
              simpa using hm
            rcases hm' with ⟨hj, _⟩ | hmem2
            · exact Nat.le_of_eq hj
            · exact Nat.le_of_lt (hinv j m hmem2).2
          · intro c hm
            have hm' : Event.write FileName.completed c ∈ st.trace := by
              simpa using hm
            exact hcomp c hm'
        · exfalso
          have h := (hinv k n hmem).1
          rw [hek] at h
          simp [Except.isOk, Except.toBool] at h

/-- C1: if step i's function raises during an execute run, the executor
writes the failed marker file carrying that step's index, name, error
text and a timestamp, makes the patch of the node status annotation to
failed (which lands whenever the API call succeeds), and returns without
invoking any step j > i; no completed marker is written in that run. -/
theorem step_failure_fail_fast (nodeName : String) (p : Bool)
    (f : Nat → Except String Unit) (isCP : Bool) (meta : Metadata)
    (resume : Bool) (dir0 : Dir) (ann0 : Option String)
    (k : Nat) (n e : String)
    (hk : Event.invoke k n ∈
      (process_operation nodeName p f isCP meta resume dir0 ann0).trace)
    (hek : f k = Except.error e) :
    (∃ t, lookupFile (process_operation nodeName p f isCP meta resume dir0 ann0).dir
        FileName.failed = some (FileContent.failedMarker k n e t))
    ∧ Event.patchStatus "failed" ∈
        (process_operation nodeName p f isCP meta resume dir0 ann0).trace
    ∧ (p = true →
        (process_operation nodeName p f isCP meta resume dir0 ann0).statusAnn
          = some "failed")
    ∧ (∀ j m, Event.invoke j m ∈
        (process_operation nodeName p f isCP meta resume dir0 ann0).trace → j ≤ k)
    ∧ (∀ c, Event.write FileName.completed c ∉
        (process_operation nodeName p f isCP meta resume dir0 ann0).trace) := by
  unfold process_operation at hk ⊢
  refine runSteps_fail_char nodeName p f _ 1 _ ?_ ?_ k n e hk hek
  · intro j m hm
    exfalso
    cases resume with
    | true => simp [initState] at hm
    | false => simp [initState, writeF] at hm
  · intro c hm
    cases resume with
    | true => simp [initState] at hm
    | false => simp [initState, writeF] at hm

/-- Witness for C1: a run whose first step function raises "boom" leaves
a failed marker recording step 1, download-packages, the error text and a
timestamp, and invokes no step beyond 1. -/
theorem step_failure_fail_fast_witness :
    (∃ t, lookupFile (process_operation "node1" true (fun _ => Except.error "boom")
        true { operation_id := "op1", target_version := some "1.29.4",
               components := [], node_name := "node1", started_at := 0 }
        false [] none).dir FileName.failed
      = some (FileContent.failedMarker 1 "download-packages" "boom" t))
    ∧ (∀ j m, Event.invoke j m ∈
        (process_operation "node1" true (fun _ => Except.error "boom")
          true { operation_id := "op1", target_version := some "1.29.4",
                 components := [], node_name := "node1", started_at := 0 }
          false [] none).trace → j ≤ 1) := by
  have h := step_failure_fail_fast "node1" true (fun _ => Except.error "boom")
    true { operation_id := "op1", target_version := some "1.29.4",
           components := [], node_name := "node1", started_at := 0 }
    false [] none 1 "download-packages" "boom" (by decide) rfl
  exact ⟨h.1, h.2.2.2.1⟩

/-! ### C2: skip iff done marker, fresh inprogress before invocation -/

theorem runSteps_skip_inv (nodeName : String) (p : Bool)
    (f : Nat → Except String Unit) (dir0 : Dir) :
    ∀ (L : List String) (i : Nat) (st : AgentState),
      (∀ j n, i ≤ j →
        hasFile st.dir (FileName.stepDone j n) = hasFile dir0 (FileName.stepDone j n)) →
      (∀ j n, Event.skip j n ∈ st.trace →
        hasFile dir0 (FileName.stepDone j n) = true) →
      (∀ j n, Event.invoke j n ∈ st.trace →
        hasFile dir0 (FileName.stepDone j n) = false) →
      (∀ j n, Event.skip j n ∈ (runSteps nodeName p f L i st).trace →
        hasFile dir0 (FileName.stepDone j n) = true)
      ∧ (∀ j n, Event.invoke j n ∈ (runSteps nodeName p f L i st).trace →
        hasFile dir0 (FileName.stepDone j n) = false) := by
  intro L
  induction L with
  | nil =>
    intro i st _ hskip hinv
    constructor
    · intro j n hm
      exact hskip j n (by simpa [runSteps, update_node_ann, writeF] using hm)
    · intro j n hm
      exact hinv j n (by simpa [runSteps, update_node_ann, writeF] using hm)
  | cons name rest ih =>
    intro i st hfiles hskip hinv
    cases hds : hasFile st.dir (FileName.stepDone i name) with
    | true =>
      simp only [runSteps, hds, if_true]
      apply ih (i + 1)
      · intro j n hj
        exact hfiles j n (Nat.le_of_succ_le hj)
      · intro j n hm
        have hm' : (j = i ∧ n = name) ∨ Event.skip j n ∈ st.trace := by simpa using hm
        rcases hm' with ⟨hj, hn⟩ | hmem
        · subst hj
          subst hn
          rw [← hfiles j n (Nat.le_refl j)]
          exact hds
        · exact hskip j n hmem
      · intro j n hm
        exact hinv j n (by simpa using hm)
    | false =>
      cases hf : f i with
      | ok u =>
        simp only [runSteps, hds, hf, Bool.false_eq_true, if_false]
        apply ih (i + 1)
        · intro j n hj
          have hji : ¬ (j = i) := by omega
          simp only [renameF, writeF]
          rw [hasFile_renameFile_other _ _ _ _ (by simp) (by simp [hji]),
            hasFile_setFile_other _ _ _ _ (by simp)]
          exact hfiles j n (Nat.le_of_succ_le hj)
        · intro j n hm
          exact hskip j n (by simpa [renameF, writeF] using hm)
        · intro j n hm
          have hm' : (j = i ∧ n = name) ∨ Event.invoke j n ∈ st.trace := by
            simpa [renameF, writeF] using hm
          rcases hm' with ⟨hj, hn⟩ | hmem
          · subst hj
            subst hn
            rw [← hfiles j n (Nat.le_refl j)]
            exact hds
          · exact hinv j n hmem
      | error e0 =>
        constructor
        · intro j n hm
          exact hskip j n
            (by simpa [runSteps, hds, hf, update_node_ann, writeF] using hm)
        · intro j n hm
          have hm' : (j = i ∧ n = name) ∨ Event.invoke j n ∈ st.trace := by
            simpa [runSteps, hds, hf, update_node_ann, writeF] using hm
          rcases hm' with ⟨hj, hn⟩ | hmem
          · subst hj
            subst hn
            rw [← hfiles j n (Nat.le_refl j)]
            exact hds
          · exact hinv j n hmem

/-- Every occurrence of an invoke event in a trace (most recent first) is
immediately preceded chronologically by the write of the fresh inprogress
marker for that step. -/
def ipBeforeInvoke (tr : List Event) : Prop :=
  ∀ i n t1 t2, tr = t1 ++ Event.invoke i n :: t2 →
    ∃ clk t3, t2 = Event.write (FileName.stepInprogress i n)
      (FileContent.stepMarker i n clk) :: t3

theorem ipBeforeInvoke_cons (e : Event) (tr : List Event)
    (he : ∀ j m, e ≠ Event.invoke j m) (h : ipBeforeInvoke tr) :
    ipBeforeInvoke (e :: tr) := by
  intro i n t1 t2 heq
  cases t1 with
  | nil =>
    simp at heq
    exact absurd heq.1 (he i n)
  | cons a t1 =>
    simp at heq
    exact h i n t1 t2 heq.2

theorem ipBeforeInvoke_push (i : Nat) (n : String) (clk : Nat) (tr : List Event)
    (h : ipBeforeInvoke tr) :
    ipBeforeInvoke (Event.invoke i n ::
      Event.write (FileName.stepInprogress i n) (FileContent.stepMarker i n clk) :: tr) := by
  intro i' n' t1 t2 heq
  cases t1 with
  | nil =>
    simp at heq
    obtain ⟨⟨hi, hn⟩, ht⟩ := heq
    subst hi
    subst hn
    exact ⟨clk, tr, ht.symm⟩
  | cons a t1 =>
    cases t1 with
    | nil => simp at heq
    | cons b t1 =>
      simp at heq
      exact h i' n' t1 t2 heq.2.2

theorem runSteps_ip_adj (nodeName : String) (p : Bool) (f : Nat → Except String Unit) :
    ∀ (L : List String) (i : Nat) (st : AgentState),
      ipBeforeInvoke st.trace → ipBeforeInvoke (runSteps nodeName p f L i st).trace := by
  intro L
  induction L with
  | nil =>
    intro i st h
    simp only [runSteps, update_node_ann, writeF]
    exact ipBeforeInvoke_cons _ _ (by intro j m; simp)
      (ipBeforeInvoke_cons _ _ (by intro j m; simp) h)
  | cons name rest ih =>
    intro i st h
    cases hds : hasFile st.dir (FileName.stepDone i name) with
    | true =>
      simp only [runSteps, hds, if_true]
      exact ih (i + 1) _ (ipBeforeInvoke_cons _ _ (by intro j m; simp) h)
    | false =>
      cases hf : f i with
      | ok u =>
        simp only [runSteps, hds, hf, Bool.false_eq_true, if_false]
        exact ih (i + 1) _ (ipBeforeInvoke_cons _ _ (by intro j m; simp)
          (ipBeforeInvoke_push i name st.clock st.trace h))
      | error e0 =>
        simp only [runSteps, hds, hf, Bool.false_eq_true, if_false,
          update_node_ann, writeF]
        exact ipBeforeInvoke_cons _ _ (by intro j m; simp)
          (ipBeforeInvoke_cons _ _ (by intro j m; simp)
            (ipBeforeInvoke_push i name st.clock st.trace h))

/-- C2: in an execute run over an operation directory, step i is skipped
(only logged, nothing executed) exactly when its done marker already
exists — every skip event belongs to a step whose done file was present
at entry, and every invoked step's done file was absent at entry — and
every non-skipped step has a fresh inprogress marker written immediately
before its step function is invoked. -/
theorem skip_iff_done_fresh_inprogress (nodeName : String) (p : Bool)
    (f : Nat → Except String Unit) (isCP : Bool) (meta : Metadata)
    (resume : Bool) (dir0 : Dir) (ann0 : Option String) :
    (∀ i n, Event.skip i n ∈
        (process_operation nodeName p f isCP meta resume dir0 ann0).trace →
      hasFile dir0 (FileName.stepDone i n) = true)
    ∧ (∀ i n, Event.invoke i n ∈
        (process_operation nodeName p f isCP meta resume dir0 ann0).trace →
      hasFile dir0 (FileName.stepDone i n) = false)
    ∧ (∀ i n t1 t2,
        (process_operation nodeName p f isCP meta resume dir0 ann0).trace
          = t1 ++ Event.invoke i n :: t2 →
        ∃ clk t3, t2 = Event.write (FileName.stepInprogress i n)
          (FileContent.stepMarker i n clk) :: t3) := by
  unfold process_operation
  have hfiles0 : ∀ j n, 1 ≤ j →
      hasFile (if resume then initState dir0 ann0
        else writeF (initState dir0 ann0) FileName.metadataJson
          (FileContent.metadata meta.operation_id meta.target_version
            meta.components meta.node_name meta.started_at)).dir
        (FileName.stepDone j n)
      = hasFile dir0 (FileName.stepDone j n) := by
    intro j n _
    cases resume with
    | true => simp [initState]
    | false =>
      simp only [Bool.false_eq_true, if_false, writeF, initState]
      rw [hasFile_setFile_other _ _ _ _ (by simp)]
  have hskip0 : ∀ j n, Event.skip j n ∈
      (if resume then initState dir0 ann0
        else writeF (initState dir0 ann0) FileName.metadataJson
          (FileContent.metadata meta.operation_id meta.target_version
            meta.components meta.node_name meta.started_at)).trace →
      hasFile dir0 (FileName.stepDone j n) = true := by
    intro j n hm
    exfalso
    cases resume with
    | true => simp [initState] at hm
    | false => simp [initState, writeF] at hm
  have hinv0 : ∀ j n, Event.invoke j n ∈
      (if resume then initState dir0 ann0
        else writeF (initState dir0 ann0) FileName.metadataJson
          (FileContent.metadata meta.operation_id meta.target_version
            meta.components meta.node_name meta.started_at)).trace →
      hasFile dir0 (FileName.stepDone j n) = false := by
    intro j n hm
    exfalso
    cases resume with
    | true => simp [initState] at hm
    | false => simp [initState, writeF] at hm
  have hadj0 : ipBeforeInvoke
      (if resume then initState dir0 ann0
        else writeF (initState dir0 ann0) FileName.metadataJson
          (FileContent.metadata meta.operation_id meta.target_version
            meta.components meta.node_name meta.started_at)).trace := by
    cases resume with
    | true =>
      intro i n t1 t2 heq
      exact absurd heq (by simp [initState])
    | false =>
      simp only [Bool.false_eq_true, if_false, writeF, initState]
      refine ipBeforeInvoke_cons _ _ (by intro j m; simp) ?_
      intro i n t1 t2 heq
      exact absurd heq (by simp)
  have h := runSteps_skip_inv nodeName p f dir0
    (get_upgrade_steps isCP meta.components) 1 _ hfiles0 hskip0 hinv0
  exact ⟨h.1, h.2, runSteps_ip_adj nodeName p f _ 1 _ hadj0⟩

/-- Witness for C2: in a concrete run whose directory already carries the
done marker of step 1, step 1 is skipped (and its done file was indeed
present), step 2 is invoked (its done file was absent), and in the trace
the invocation of step 2 is immediately preceded by the write of its
fresh inprogress marker. -/
theorem skip_iff_done_fresh_inprogress_witness :
    hasFile [(FileName.stepDone 1 "download-packages",
        FileContent.stepMarker 1 "download-packages" 0)]
      (FileName.stepDone 1 "download-packages") = true
    ∧ hasFile [(FileName.stepDone 1 "download-packages",
        FileContent.stepMarker 1 "download-packages" 0)]
      (FileName.stepDone 2 "upgrade-kubeadm") = false
    ∧ (∃ clk t3,
        [Event.write (FileName.stepInprogress 2 "upgrade-kubeadm")
           (FileContent.stepMarker 2 "upgrade-kubeadm" 1),
         Event.skip 1 "download-packages",
         Event.write FileName.metadataJson
           (FileContent.metadata "op1" (some "1.29.4") [] "node1" 0)]
        = Event.write (FileName.stepInprogress 2 "upgrade-kubeadm")
            (FileContent.stepMarker 2 "upgrade-kubeadm" clk) :: t3) := by
  have h := skip_iff_done_fresh_inprogress "node1" true
    (fun i => if i = 2 then Except.error "x" else Except.ok ()) true
    { operation_id := "op1", target_version := some "1.29.4",
      components := [], node_name := "node1", started_at := 0 }
    false [(FileName.stepDone 1 "download-packages",
      FileContent.stepMarker 1 "download-packages" 0)] none
  refine ⟨h.1 1 "download-packages" (by decide),
    h.2.1 2 "upgrade-kubeadm" (by decide),
    h.2.2 2 "upgrade-kubeadm"
      [Event.patchStatus "failed",
       Event.write FileName.failed (FileContent.failedMarker 2 "upgrade-kubeadm" "x" 2)]
      [Event.write (FileName.stepInprogress 2 "upgrade-kubeadm")
         (FileContent.stepMarker 2 "upgrade-kubeadm" 1),
       Event.skip 1 "download-packages",
       Event.write FileName.metadataJson
         (FileContent.metadata "op1" (some "1.29.4") [] "node1" 0)]
      (by decide)⟩

/-! ### C4: rename atomicity and the absence of fsync -/

/-- Every rename event in the trace moves a step's inprogress marker to
that same step's done marker (both paths inside the one operation
directory). -/
def RenameShape (tr : List Event) : Prop :=
  ∀ s d, Event.rename s d ∈ tr →
    ∃ i n, s = FileName.stepInprogress i n ∧ d = FileName.stepDone i n

/-- The trace performs no fsync of any file or of the directory. -/
def NoFsync (tr : List Event) : Prop :=
  ∀ e, e ∈ tr → isFsyncEvent e = false

theorem RenameShape_cons (e0 : Event) (tr : List Event)
    (h0 : ∀ s d, e0 ≠ Event.rename s d) (h : RenameShape tr) :
    RenameShape (e0 :: tr) := by
  intro s d hm
  rcases List.mem_cons.mp hm with h1 | h1
  · exact absurd h1.symm (h0 s d)
  · exact h s d h1

theorem RenameShape_consRen (i : Nat) (n : String) (tr : List Event)
    (h : RenameShape tr) :
    RenameShape (Event.rename (FileName.stepInprogress i n)
      (FileName.stepDone i n) :: tr) := by
  intro s d hm
  rcases List.mem_cons.mp hm with h1 | h1
  · obtain ⟨hs, hd⟩ := Event.rename.inj h1
    exact ⟨i, n, hs, hd⟩
  · exact h s d h1

theorem NoFsync_cons (e0 : Event) (tr : List Event)
    (h0 : isFsyncEvent e0 = false) (h : NoFsync tr) : NoFsync (e0 :: tr) := by
  intro e hm
  rcases List.mem_cons.mp hm with h1 | h1
  · rw [h1]; exact h0
  · exact h e h1

theorem runSteps_trace_shape (nodeName : String) (p : Bool)
    (f : Nat → Except String Unit) :
    ∀ (L : List String) (i : Nat) (st : AgentState),
      RenameShape st.trace → NoFsync st.trace →
      RenameShape (runSteps nodeName p f L i st).trace
      ∧ NoFsync (runSteps nodeName p f L i st).trace := by
  intro L
  induction L with
  | nil =>
    intro i st hren hfs
    simp only [runSteps, update_node_ann, writeF]
    exact ⟨RenameShape_cons _ _ (by intro s d; simp)
        (RenameShape_cons _ _ (by intro s d; simp) hren),
      NoFsync_cons _ _ rfl (NoFsync_cons _ _ rfl hfs)⟩
  | cons name rest ih =>
    intro i st hren hfs
    cases hds : hasFile st.dir (FileName.stepDone i name) with
    | true =>
      simp only [runSteps, hds, if_true]
      exact ih (i + 1) _ (RenameShape_cons _ _ (by intro s d; simp) hren)
        (NoFsync_cons _ _ rfl hfs)
    | false =>
      cases hf : f i with
      | ok u =>
        simp only [runSteps, hds, hf, Bool.false_eq_true, if_false]
        exact ih (i + 1) _
          (RenameShape_consRen i name _
            (RenameShape_cons _ _ (by intro s d; simp)
              (RenameShape_cons _ _ (by intro s d; simp) hren)))
          (NoFsync_cons _ _ rfl (NoFsync_cons _ _ rfl (NoFsync_cons _ _ rfl hfs)))
      | error e0 =>
        simp only [runSteps, hds, hf, Bool.false_eq_true, if_false,
          update_node_ann, writeF]
        exact ⟨RenameShape_cons _ _ (by intro s d; simp)
            (RenameShape_cons _ _ (by intro s d; simp)
              (RenameShape_cons _ _ (by intro s d; simp)
                (RenameShape_cons _ _ (by intro s d; simp) hren))),
          NoFsync_cons _ _ rfl (NoFsync_cons _ _ rfl
            (NoFsync_cons _ _ rfl (NoFsync_cons _ _ rfl hfs)))⟩

/-- C4 counterexample: the durability half of the claim is false on the
code.  A concrete successful run writes marker files and then makes
further transitions visible (more writes and the inprogress-to-done
rename) while performing no fsync whatsoever — neither of any file nor of
the parent directory — so no marker write is made durable before the next
state transition becomes visible. -/
theorem rename_fsync_counterexample :
    ((process_operation "node1" true (fun _ => Except.ok ()) true
        { operation_id := "op1", target_version := some "1.29.4",
          components := [], node_name := "node1", started_at := 0 }
        false [] none).trace.all (fun e => !(isFsyncEvent e)) = true)
    ∧ Event.write (FileName.stepInprogress 1 "download-packages")
        (FileContent.stepMarker 1 "download-packages" 1)
      ∈ (process_operation "node1" true (fun _ => Except.ok ()) true
        { operation_id := "op1", target_version := some "1.29.4",
          components := [], node_name := "node1", started_at := 0 }
        false [] none).trace
    ∧ Event.rename (FileName.stepInprogress 1 "download-packages")
        (FileName.stepDone 1 "download-packages")
      ∈ (process_operation "node1" true (fun _ => Except.ok ()) true
        { operation_id := "op1", target_version := some "1.29.4",
          components := [], node_name := "node1", started_at := 0 }
        false [] none).trace := by
  decide

/-- C4 (amended): in every execute run, every inprogress-to-done
transition is performed by a rename whose source and destination are that
step's marker files inside the same operation directory (so the rename is
an atomic same-directory rename), but no marker write is fsynced: the run
performs no fsync of any file or of the parent directory, leaving
durability to the operating system. -/
theorem rename_atomic_no_fsync (nodeName : String) (p : Bool)
    (f : Nat → Except String Unit) (isCP : Bool) (meta : Metadata)
    (resume : Bool) (dir0 : Dir) (ann0 : Option String) :
    (∀ s d, Event.rename s d ∈
        (process_operation nodeName p f isCP meta resume dir0 ann0).trace →
      ∃ i n, s = FileName.stepInprogress i n ∧ d = FileName.stepDone i n)
    ∧ (∀ e, e ∈ (process_operation nodeName p f isCP meta resume dir0 ann0).trace →
      isFsyncEvent e = false) := by
  unfold process_operation
  apply runSteps_trace_shape
  · cases resume with
    | true =>
      intro s d hm
      simp [initState] at hm
    | false =>
      intro s d hm
      simp [initState, writeF] at hm
  · cases resume with
    | true =>
      intro e hm
      simp [initState] at hm
    | false =>
      intro e hm
      have : e = Event.write FileName.metadataJson
          (FileContent.metadata meta.operation_id meta.target_version
            meta.components meta.node_name meta.started_at) := by
        simpa [initState, writeF] using hm
      rw [this]
      rfl

/-- Witness for the amended C4: applied to a concrete successful run, the
rename found in its trace is step 1's inprogress-to-done marker rename,
and the patch event in the trace is not an fsync. -/
theorem rename_atomic_no_fsync_witness :
    (∃ i n, FileName.stepInprogress 1 "download-packages"
        = FileName.stepInprogress i n
      ∧ FileName.stepDone 1 "download-packages" = FileName.stepDone i n)
    ∧ isFsyncEvent (Event.patchStatus "completed") = false := by
  have h := rename_atomic_no_fsync "node1" true (fun _ => Except.ok ()) true
    { operation_id := "op1", target_version := some "1.29.4",
      components := [], node_name := "node1", started_at := 0 }
    false [] none
  exact ⟨h.1 _ _ (by decide), h.2 _ (by decide)⟩

/-! ### C7: backup request intake -/

theorem backupLoop_mono (hostpathRoot nodeName : String)
    (outcome : Nat → Except String Unit) :
    ∀ (cms : List BackupCM) (j : Nat) (k : K8s),
      (∀ x, x ∈ k.deleted →
        x ∈ (backupLoop hostpathRoot nodeName outcome cms j k).deleted)
      ∧ (∀ s, s ∈ k.created →
        s ∈ (backupLoop hostpathRoot nodeName outcome cms j k).created) := by
  intro cms
  induction cms with
  | nil =>
    intro j k
    exact ⟨fun x h => h, fun s h => h⟩
  | cons cm rest ih =>
    intro j k
    by_cases hn : cm.node_name = some nodeName
    · have hcond : ¬ (cm.node_name ≠ some nodeName) := by simp [hn]
      cases ho : outcome j with
      | ok u =>
        simp only [backupLoop, perform_etcd_backup, ho, if_neg hcond]
        constructor
        · intro x hx
          exact (ih (j + 1) _).1 x (List.mem_cons_of_mem _ hx)
        · intro s hs
          exact (ih (j + 1) _).2 s (List.mem_cons_of_mem _ hs)
      | error e =>
        simp only [backupLoop, perform_etcd_backup, ho, if_neg hcond]
        constructor
        · intro x hx
          exact hx
        · intro s hs
          exact List.mem_cons_of_mem _ hs
    · simp only [backupLoop, if_pos hn]
      exact ih (j + 1) k

theorem backupLoop_deleted_prov (hostpathRoot nodeName : String)
    (outcome : Nat → Except String Unit) :
    ∀ (cms : List BackupCM) (j : Nat) (k : K8s) (x : String),
      x ∈ (backupLoop hostpathRoot nodeName outcome cms j k).deleted →
      x ∈ k.deleted
      ∨ ∃ cm j2, cm ∈ cms ∧ cm.node_name = some nodeName ∧ cm.name = x
          ∧ outcome j2 = Except.ok () := by
  intro cms
  induction cms with
  | nil =>
    intro j k x hx
    exact Or.inl hx
  | cons cm rest ih =>
    intro j k x hx
    by_cases hn : cm.node_name = some nodeName
    · have hcond : ¬ (cm.node_name ≠ some nodeName) := by simp [hn]
      cases ho : outcome j with
      | ok u =>
        simp only [backupLoop, perform_etcd_backup, ho, if_neg hcond] at hx
        rcases ih (j + 1) _ x hx with hk | ⟨cm2, j2, hmem, hmatch, hname, hok⟩
        · rcases List.mem_cons.mp hk with heq | htail
          · right
            exact ⟨cm, j, List.mem_cons_self _ _, hn, heq.symm, by cases u; exact ho⟩
          · exact Or.inl htail
        · right
          exact ⟨cm2, j2, List.mem_cons_of_mem _ hmem, hmatch, hname, hok⟩
      | error e =>
        simp only [backupLoop, perform_etcd_backup, ho, if_neg hcond] at hx
        exact Or.inl hx
    · simp only [backupLoop, if_pos hn] at hx
      rcases ih (j + 1) k x hx with hk | ⟨cm2, j2, hmem, hmatch, hname, hok⟩
      · exact Or.inl hk
      · right
        exact ⟨cm2, j2, List.mem_cons_of_mem _ hmem, hmatch, hname, hok⟩

theorem backupLoop_all_ok (hostpathRoot nodeName : String)
    (outcome : Nat → Except String Unit)
    (hall : ∀ j2, outcome j2 = Except.ok ()) :
    ∀ (cms : List BackupCM) (j : Nat) (k : K8s) (cm : BackupCM),
      cm ∈ cms → cm.node_name = some nodeName →
      cm.name ∈ (backupLoop hostpathRoot nodeName outcome cms j k).deleted
      ∧ ∃ s, s ∈ (backupLoop hostpathRoot nodeName outcome cms j k).created
          ∧ s.name = backup_status_name nodeName cm.operation_id
          ∧ s.success = "true" ∧ s.snapshot_name = optStr cm.snapshot_name := by
  intro cms
  induction cms with
  | nil =>
    intro j k cm hmem
    exact absurd hmem (List.not_mem_nil cm)
  | cons cm0 rest ih =>
    intro j k cm hmem hmatch
    rcases List.mem_cons.mp hmem with heq | htail
    · subst heq
      have hcond : ¬ (cm.node_name ≠ some nodeName) := by simp [hmatch]
      have ho := hall j
      simp only [backupLoop, perform_etcd_backup, ho, if_neg hcond]
      constructor
      · exact (backupLoop_mono hostpathRoot nodeName outcome rest (j + 1) _).1 _
          (List.mem_cons_self _ _)
      · refine ⟨{ name := backup_status_name nodeName cm.operation_id,
                  completed := "true", success := "true",
                  message := hostpathRoot ++ "/" ++ optStr cm.snapshot_name ++ ".db",
                  snapshot_name := optStr cm.snapshot_name,
                  timestamp := k.clock }, ?_, rfl, rfl, rfl⟩
        apply (backupLoop_mono hostpathRoot nodeName outcome rest (j + 1) _).2
        exact List.mem_cons_self _ _
    · by_cases hn0 : cm0.node_name = some nodeName
      · have hcond : ¬ (cm0.node_name ≠ some nodeName) := by simp [hn0]
        have ho := hall j
        simp only [backupLoop, perform_etcd_backup, ho, if_neg hcond]
        exact ih (j + 1) _ cm htail hmatch
      · simp only [backupLoop, if_pos hn0]
        exact ih (j + 1) k cm htail hmatch

/-- C7 (amended): on a reconcile tick with the backup store enabled, the
matching requests are processed in list order; a status object named
backup-status-operation-id-node-name with the completed, success,
message, snapshot_name and timestamp fields is created for each processed
request whether the snapshot succeeded or failed, but the request object
is deleted only after a SUCCESSFUL snapshot: a request name enters the
deleted set only for a matching request whose snapshot outcome was ok;
when all outcomes are ok every matching request is deleted and has a
success status object; and when the first request matches and its
snapshot fails, the tick ends immediately after creating the
failure-status object — the request is not deleted and no later request
is visited. -/
theorem backup_requests_processing (hostpathRoot nodeName : String)
    (outcome : Nat → Except String Unit) (cms : List BackupCM) (k : K8s) :
    (∀ x, x ∈ (check_backup_requests true hostpathRoot nodeName outcome cms k).deleted →
        x ∈ k.deleted
        ∨ ∃ cm j2, cm ∈ cms ∧ cm.node_name = some nodeName ∧ cm.name = x
            ∧ outcome j2 = Except.ok ())
    ∧ ((∀ j2, outcome j2 = Except.ok ()) → ∀ cm, cm ∈ cms →
        cm.node_name = some nodeName →
        cm.name ∈ (check_backup_requests true hostpathRoot nodeName outcome cms k).deleted
        ∧ ∃ s, s ∈ (check_backup_requests true hostpathRoot nodeName outcome cms k).created
            ∧ s.name = backup_status_name nodeName cm.operation_id
            ∧ s.success = "true" ∧ s.snapshot_name = optStr cm.snapshot_name)
    ∧ (∀ cm rest e, cm.node_name = some nodeName → outcome 0 = Except.error e →
        check_backup_requests true hostpathRoot nodeName outcome (cm :: rest) k
          = create_backup_status nodeName cm.operation_id cm.snapshot_name false e k) := by
  refine ⟨?_, ?_, ?_⟩
  · intro x hx
    exact backupLoop_deleted_prov hostpathRoot nodeName outcome cms 0 k x
      (by simpa [check_backup_requests] using hx)
  · intro hall cm hmem hmatch
    have h := backupLoop_all_ok hostpathRoot nodeName outcome hall cms 0 k cm hmem hmatch
    simpa [check_backup_requests] using h
  · intro cm rest e hmatch ho
    have hcond : ¬ (cm.node_name ≠ some nodeName) := by simp [hmatch]
    simp [check_backup_requests, backupLoop, perform_etcd_backup, ho, if_neg hcond]

/-- C7 counterexample: the claim that the request object is deleted after
processing whether the snapshot succeeded or failed is false.  A request
for this node whose snapshot fails is processed — the failure-status
object is created — but perform_etcd_backup re-raises, the intake loop
aborts, and the request is NOT deleted. -/
theorem backup_failure_no_delete_counterexample :
    (check_backup_requests true "/var/lib/cupcake" "node1"
      (fun _ => Except.error "snapshot failed")
      [{ name := "req1", node_name := some "node1", operation_id := some "op1",
         snapshot_name := some "snap1" }]
      { created := [], deleted := [], clock := 0 }).deleted = []
    ∧ (check_backup_requests true "/var/lib/cupcake" "node1"
      (fun _ => Except.error "snapshot failed")
      [{ name := "req1", node_name := some "node1", operation_id := some "op1",
         snapshot_name := some "snap1" }]
      { created := [], deleted := [], clock := 0 }).created =
      [{ name := "backup-status-op1-node1", completed := "true", success := "false",
         message := "snapshot failed", snapshot_name := "snap1", timestamp := 0 }] := by
  decide

/-- Witness for the amended C7: with an all-success snapshot oracle, the
matching request req1 is deleted and its success status object exists. -/
theorem backup_requests_processing_witness :
    "req1" ∈ (check_backup_requests true "/var/lib/cupcake" "node1"
      (fun _ => Except.ok ())
      [{ name := "req1", node_name := some "node1", operation_id := some "op1",
         snapshot_name := some "snap1" }]
      { created := [], deleted := [], clock := 0 }).deleted := by
  have h := backup_requests_processing "/var/lib/cupcake" "node1" (fun _ => Except.ok ())
    [{ name := "req1", node_name := some "node1", operation_id := some "op1",
       snapshot_name := some "snap1" }]
    { created := [], deleted := [], clock := 0 }
  exact (h.2.1 (fun _ => rfl)
    { name := "req1", node_name := some "node1", operation_id := some "op1",
      snapshot_name := some "snap1" }
    (by decide) (by decide)).1

/-- Witness for C5: with components ["containerd"] the control-plane plan
is the seven-step sequence including upgrade-containerd, and it contains
no drain-node. -/
theorem plan_exact_and_role_restricted_witness :
    get_upgrade_steps true ["containerd"] =
      ["download-packages", "upgrade-kubeadm", "kubeadm-upgrade", "upgrade-kubelet",
       "upgrade-containerd", "restart-kubelet", "verify-node"]
    ∧ "drain-node" ∉ get_upgrade_steps true ["containerd"] := by
  have h := plan_exact_and_role_restricted ["containerd"]
  exact ⟨h.2.1.trans (by decide), h.2.2.2.1⟩

/-- Witness for C6: a nonzero apt-get update exit fails the step with
SubprocessFailed; a zero update exit succeeds even though apt-get
download exited 7. -/
theorem download_apt_checks_update_only_witness :
    download_packages_apt "1.29.4" 1 0 =
      Except.error (AgentErr.subprocessFailed ["apt-get", "update"] 1)
    ∧ download_packages_apt "1.29.4" 0 7 = Except.ok () :=
  ⟨(download_apt_checks_update_only "1.29.4" 1 0).2.1.mpr (by decide),
    (download_apt_checks_update_only "1.29.4" 0 7).1.mpr rfl⟩
